import Mathlib

/-!
Verification of the object store, tree snapshot, packfile delta engine,
clone discovery and commit builder of a small C++ git implementation
(`src/main.cpp`).  Byte strings are modelled as `List Nat` with each
element an octet value; `std::string` operations (`substr`, `find`,
lexicographic `operator<`) are translated to list operations with the
same semantics.
-/

namespace GitCpp

/-- A byte string (each element is an octet, `0 ≤ b < 256` for real data). -/
abbrev Bytes := List Nat

/-- Byte string of an ASCII string literal. -/
def asciiOf (s : String) : Bytes := s.data.map Char.toNat

/-! ## SHA-1 (model of OpenSSL `SHA1`, per FIPS 180-4)

The source delegates hashing to OpenSSL's `SHA1`; this is a direct
model of the standard algorithm over byte lists, with 32-bit words
represented as `Nat` reduced modulo `2 ^ 32`. -/

/-- Truncate to a 32-bit word. -/
def w32 (x : Nat) : Nat := x % 4294967296

/-- Rotate a 32-bit word left by `s` bits. -/
def rotl (s x : Nat) : Nat := w32 ((x <<< s) ||| (x >>> (32 - s)))

/-- Big-endian 32-bit words from bytes (groups of four). -/
def bytesToWords : Bytes → List Nat
  | b0 :: b1 :: b2 :: b3 :: rest =>
      (((b0 * 256 + b1) * 256 + b2) * 256 + b3) :: bytesToWords rest
  | _ => []

/-- Big-endian bytes of a 32-bit word. -/
def be32 (x : Nat) : Bytes :=
  [x / 16777216 % 256, x / 65536 % 256, x / 256 % 256, x % 256]

/-- Big-endian bytes of a 64-bit length field. -/
def be64 (x : Nat) : Bytes :=
  [x / 72057594037927936 % 256, x / 281474976710656 % 256,
   x / 1099511627776 % 256, x / 4294967296 % 256] ++ be32 (x % 4294967296)

/-- FIPS 180-4 message padding: `0x80`, zeros to 56 mod 64, 64-bit bit length. -/
def sha1Pad (msg : Bytes) : Bytes :=
  msg ++ [128] ++ List.replicate ((119 - msg.length % 64) % 64) 0
      ++ be64 (8 * msg.length)

/-- Extend the 16 message words to 80 schedule words. -/
def wExtend : Nat → List Nat → List Nat
  | 0, ws => ws
  | n + 1, ws =>
      let k := ws.length
      wExtend n (ws ++ [rotl 1 ((((ws.getD (k - 3) 0) ^^^ (ws.getD (k - 8) 0)) ^^^
        (ws.getD (k - 14) 0)) ^^^ (ws.getD (k - 16) 0))])

/-- One round of the SHA-1 compression function; `t` is the round index. -/
def sha1Rounds : List Nat → Nat → Nat × Nat × Nat × Nat × Nat → Nat × Nat × Nat × Nat × Nat
  | [], _, st => st
  | wt :: ws, t, (a, b, c, d, e) =>
      let f :=
        if t < 20 then (b &&& c) ||| ((b ^^^ 4294967295) &&& d)
        else if t < 40 then (b ^^^ c) ^^^ d
        else if t < 60 then ((b &&& c) ||| (b &&& d)) ||| (c &&& d)
        else (b ^^^ c) ^^^ d
      let k :=
        if t < 20 then 1518500249
        else if t < 40 then 1859775393
        else if t < 60 then 2400959708
        else 3395469782
      let temp := w32 (rotl 5 a + f + e + k + wt)
      sha1Rounds ws (t + 1) (temp, a, rotl 30 b, c, d)

/-- Compress one 64-byte block into the running state. -/
def sha1Block (st : Nat × Nat × Nat × Nat × Nat) (block : Bytes) :
    Nat × Nat × Nat × Nat × Nat :=
  let ws := wExtend 64 (bytesToWords block)
  let (h0, h1, h2, h3, h4) := st
  let (a, b, c, d, e) := sha1Rounds ws 0 st
  (w32 (h0 + a), w32 (h1 + b), w32 (h2 + c), w32 (h3 + d), w32 (h4 + e))

/-- Cut the padded message into 64-byte blocks.  The fuel argument is a
bound on the number of blocks (each step consumes at least one byte, so
the byte count is such a bound); it exists only to make the recursion
structural. -/
def toBlocksF : Nat → Bytes → List Bytes
  | 0, _ => []
  | _, [] => []
  | fuel + 1, b :: rest => ((b :: rest).take 64) :: toBlocksF fuel ((b :: rest).drop 64)

/-- Cut the padded message into 64-byte blocks. -/
def toBlocks (l : Bytes) : List Bytes := toBlocksF l.length l

/-- The 20-byte SHA-1 digest of a byte string. -/
def sha1 (msg : Bytes) : Bytes :=
  let (h0, h1, h2, h3, h4) :=
    (toBlocks (sha1Pad msg)).foldl sha1Block
      (1732584193, 4023233417, 2562383102, 271733878, 3285377520)
  be32 h0 ++ be32 h1 ++ be32 h2 ++ be32 h3 ++ be32 h4

/-- Lowercase hex digit byte of a nibble. -/
def hexDigit (n : Nat) : Nat := if n < 10 then 48 + n else 87 + n

/-- Model of `shaToHex` (main.cpp:20): raw 20-byte digest to 40
lowercase hex characters. -/
def shaToHexB (raw : Bytes) : Bytes :=
  raw.foldr (fun b acc => hexDigit (b / 16) :: hexDigit (b % 16) :: acc) []

/-! ## Object framing and the loose-object store -/

/-- Decimal-ASCII digits of a natural number, accumulator form; the
first argument is fuel bounding the digit count (the number itself is
such a bound), making the recursion structural. -/
def decBytesAux : Nat → Nat → Bytes → Bytes
  | 0, _, acc => acc
  | _, 0, acc => acc
  | fuel + 1, n + 1, acc => decBytesAux fuel ((n + 1) / 10) (((n + 1) % 10 + 48) :: acc)

/-- Decimal-ASCII representation of a natural number
(model of `std::to_string`). -/
def decBytes (n : Nat) : Bytes := if n = 0 then [48] else decBytesAux n n []

/-- Model of the header framing in `writeObject` (main.cpp:32-33):
`"<kind> <decimal-size>\x00<payload>"`. -/
def frameObj (kind content : Bytes) : Bytes :=
  kind ++ [32] ++ decBytes content.length ++ [0] ++ content

/-- The loose-object directory, keyed by the 40-hex-char identifier
(the on-disk path `<h[0:2]>/<h[2:40]>` determines and is determined by
the full hex id). -/
def Store := List (Bytes × Bytes)

/-- Association-list lookup with the most recent write first. -/
def storeLookup : Store → Bytes → Option Bytes
  | [], _ => none
  | (k, v) :: rest, key => if key = k then some v else storeLookup rest key

/-- Model of `writeObject` (main.cpp:30-63): frame, hash, compress with
the ambient codec, store under the hex id; returns the raw 20-byte
digest.  `deflate` stands for the external zlib `compress`. -/
def writeObject (deflate : Bytes → Bytes) (st : Store) (type content : Bytes) :
    Bytes × Store :=
  let store := frameObj type content
  let raw := sha1 store
  (raw, (shaToHexB raw, deflate store) :: st)

/-- Model of `readObject` (main.cpp:66-100): look the hex id up and
inflate; `inflate` stands for the external zlib stream inflater. -/
def readObject (inflate : Bytes → Bytes) (st : Store) (shaHex : Bytes) :
    Option Bytes :=
  (storeLookup st shaHex).map inflate

/-- Split a framed object at the first NUL byte, as the readers do via
`content.find(0)` / `substr` (main.cpp:364-365); the NUL-free case is
never reached on framed objects. -/
def splitAtNul : Bytes → Bytes × Bytes
  | [] => ([], [])
  | b :: rest =>
      if b = 0 then ([], rest)
      else
        let p := splitAtNul rest
        (b :: p.1, p.2)

/-- Components of a framed object: the kind (header text before the
space) and the payload (everything after the first NUL), per the
store's `get` contract. -/
def getKindPayload (framed : Bytes) : Bytes × Bytes :=
  let p := splitAtNul framed
  (p.1.takeWhile (fun b => b != 32), p.2)

/-- `get`: read a stored object back and split it into kind and
payload. -/
def getObject (inflate : Bytes → Bytes) (st : Store) (shaHex : Bytes) :
    Option (Bytes × Bytes) :=
  (readObject inflate st shaHex).map getKindPayload

/-! ## Tree entries and the `write-tree` snapshot -/

/-- A tree entry as collected by `writeTree` (main.cpp:103-112). -/
structure TreeEntry where
  name : Bytes
  mode : Bytes
  shaRaw : Bytes
deriving DecidableEq

/-- Lexicographic byte-wise less-than on byte strings, the semantics of
`std::string::operator<`. -/
def bytesLt : Bytes → Bytes → Bool
  | [], [] => false
  | [], _ :: _ => true
  | _ :: _, [] => false
  | a :: as, b :: bs => if a < b then true else if b < a then false else bytesLt as bs

/-- Model of `TreeEntry::operator<` (main.cpp:109-111): compare the raw
names only. -/
def entLt (x y : TreeEntry) : Bool := bytesLt x.name y.name

/-- Insert into a list sorted by `entLt`. -/
def insertEntry (e : TreeEntry) : List TreeEntry → List TreeEntry
  | [] => [e]
  | x :: xs => if entLt e x then e :: x :: xs else x :: insertEntry e xs

/-- The `sort(entries.begin(), entries.end())` call of `writeTree`
(main.cpp:145), modelled as insertion sort with the same comparator
(std::sort and insertion sort agree on every list with pairwise
distinct keys, which covers directory listings: names are unique). -/
def sortEntries : List TreeEntry → List TreeEntry
  | [] => []
  | e :: es => insertEntry e (sortEntries es)

/-- The tree payload built by `writeTree` (main.cpp:148-152):
`<mode> <name>\x00<20-byte-sha>` for each entry, in sorted order. -/
def treeContentOf (es : List TreeEntry) : Bytes :=
  (sortEntries es).foldl
    (fun acc e => acc ++ (e.mode ++ [32] ++ e.name ++ [0] ++ e.shaRaw)) []

/-- The canonical git sort key per the specification: the name, with a
trailing slash appended for directory (mode 40000) entries. -/
def canonKey (e : TreeEntry) : Bytes :=
  e.name ++ (if e.mode = asciiOf "40000" then [47] else [])

/-! ## Delta application (`applyDelta`, main.cpp:259-297) -/

/-- The variable-length little-endian size prefix loop of `applyDelta`
(main.cpp:262-267 and 268-274): 7 value bits per byte, bit 7 is the
continuation flag; the loop simply stops at end of input, keeping the
partial value.  Returns the value and the unconsumed rest. -/
def readVarSize : Bytes → Nat → Nat → Nat × Bytes
  | [], acc, _ => (acc, [])
  | b :: rest, acc, shift =>
      let acc := acc ||| ((b &&& 127) <<< shift)
      if b &&& 128 ≠ 0 then readVarSize rest acc (shift + 7) else (acc, rest)

/-- Read one byte when the presence flag is set, else yield 0 (the
"missing bytes default to zero" behaviour of the copy decoder). -/
def condByte (present : Bool) (l : Bytes) : Option (Nat × Bytes) :=
  if present then
    match l with
    | [] => none
    | b :: rest => some (b, rest)
  else some (0, l)

/-- The copy-instruction argument decoder of `applyDelta`
(main.cpp:281-288): bits 0-3 of `cmd` select four offset bytes, bits
4-6 select three size bytes, composed little-endian with `|=` and
shifts.  `none` models reading past the end of the delta (undefined in
the C++ source). -/
def readCopyArgs (cmd : Nat) (l : Bytes) : Option (Nat × Nat × Bytes) :=
  (condByte (cmd &&& 1 != 0) l).bind fun x0 =>
  (condByte (cmd &&& 2 != 0) x0.2).bind fun x1 =>
  (condByte (cmd &&& 4 != 0) x1.2).bind fun x2 =>
  (condByte (cmd &&& 8 != 0) x2.2).bind fun x3 =>
  (condByte (cmd &&& 16 != 0) x3.2).bind fun x4 =>
  (condByte (cmd &&& 32 != 0) x4.2).bind fun x5 =>
  (condByte (cmd &&& 64 != 0) x5.2).bind fun x6 =>
  some (((x0.1 ||| (x1.1 <<< 8)) ||| (x2.1 <<< 16)) ||| (x3.1 <<< 24),
        (x4.1 ||| (x5.1 <<< 8)) ||| (x6.1 <<< 16), x6.2)

/-- The instruction loop of `applyDelta` (main.cpp:278-295).  The fuel
argument bounds the number of loop iterations (each iteration consumes
the command byte, so the length of the delta is such a bound); it only
makes the recursion structural.  Copy commands with `cmd` bit 7 set
emit `base.substr(copyOff, copySize)` (clamped like `substr`; `none`
when the offset is past the end, where `substr` throws); insert
commands (`cmd > 0`) emit the next `cmd` literal bytes; `cmd == 0` is
silently skipped by the source (`else if (cmd > 0)` with no else). -/
def applyDeltaLoop (base : Bytes) : Nat → Bytes → Bytes → Option Bytes
  | _, [], acc => some acc
  | 0, _ :: _, _ => none
  | fuel + 1, cmd :: rest, acc =>
      if cmd &&& 128 ≠ 0 then
        match readCopyArgs cmd rest with
        | none => none
        | some (off, szRaw, rest2) =>
            let sz := if szRaw = 0 then 65536 else szRaw
            if base.length < off then none
            else applyDeltaLoop base fuel rest2 (acc ++ (base.drop off).take sz)
      else if cmd > 0 then
        applyDeltaLoop base fuel (rest.drop cmd) (acc ++ rest.take cmd)
      else applyDeltaLoop base fuel rest acc

/-- Model of `applyDelta` (main.cpp:259-297): decode the two size
prefixes, then run the instruction loop. -/
def applyDelta (base delta : Bytes) : Option Bytes :=
  let r1 := readVarSize delta 0 0
  let r2 := readVarSize r1.2 0 0
  applyDeltaLoop base delta.length r2.2 []

/-- The target size declared in a delta header (the second variable-
length size prefix), which the source decodes but never validates. -/
def declaredTargetSize (delta : Bytes) : Nat :=
  (readVarSize (readVarSize delta 0 0).2 0 0).1

/-! ## Pack objects and delta resolution (main.cpp:299-303, 529-575) -/

/-- Model of `struct PackObject`.  The C++ uses an empty `sha` string
for "not yet resolved"; that state is `none` here.  `baseSha` is the
hex base id of a ref-delta (type 7). -/
structure PackObj where
  type : Nat
  data : Bytes
  sha : Option Bytes
  baseSha : Option Bytes
  offset : Nat
  baseOffset : Nat
deriving DecidableEq

/-- Model of `typeToString` (main.cpp:160-170). -/
def typeToString (t : Nat) : String :=
  if t = 1 then "commit"
  else if t = 2 then "tree"
  else if t = 3 then "blob"
  else if t = 4 then "tag"
  else if t = 6 then "ofs_delta"
  else if t = 7 then "ref_delta"
  else "unknown"

/-- Frame and hash a resolved pack object, as done at main.cpp:535-540
and 562-567; yields the 40-char hex identifier. -/
def hashObjFull (t : Nat) (data : Bytes) : Bytes :=
  shaToHexB (sha1 (frameObj (asciiOf (typeToString t)) data))

/-- Lookup in the `objects` map (`map<string, PackObject>`), most
recent insertion first (later `map[k] =` overwrites earlier ones). -/
def objLookup : List (Bytes × PackObj) → Bytes → Option PackObj
  | [], _ => none
  | (k, v) :: rest, key => if key = k then some v else objLookup rest key

/-- Lookup in the `offToSha` map (`map<size_t, string>`). -/
def offLookup : List (Nat × Bytes) → Nat → Option Bytes
  | [], _ => none
  | (k, v) :: rest, key => if key = k then some v else offLookup rest key

/-- The first resolution pass (main.cpp:533-546): every non-delta
object (type < 6) is framed, hashed and entered into both maps; delta
objects pass through untouched. -/
def firstPassAux :
    List PackObj → List (Bytes × PackObj) → List (Nat × Bytes) →
    List PackObj × List (Bytes × PackObj) × List (Nat × Bytes)
  | [], obs, offs => ([], obs, offs)
  | o :: rest, obs, offs =>
      if o.type < 6 then
        let sha := hashObjFull o.type o.data
        let o2 := { o with sha := some sha }
        let r := firstPassAux rest ((sha, o2) :: obs) ((o2.offset, sha) :: offs)
        (o2 :: r.1, r.2)
      else
        let r := firstPassAux rest obs offs
        (o :: r.1, r.2)

/-- One pass of the delta-resolution `for` loop (main.cpp:551-574):
each still-unresolved object whose base is known is rebuilt via
`applyDelta`, inherits the base's type, is hashed and entered into the
maps; the Bool records whether the pass made progress.  `none`
propagates a throwing `applyDelta` (the enclosing try/catch would then
abort the command). -/
def deltaPass :
    List PackObj → List (Bytes × PackObj) → List (Nat × Bytes) → Bool →
    Option (List PackObj × List (Bytes × PackObj) × List (Nat × Bytes) × Bool)
  | [], obs, offs, prog => some ([], obs, offs, prog)
  | o :: rest, obs, offs, prog =>
      match o.sha with
      | some _ =>
          (deltaPass rest obs offs prog).map fun r => (o :: r.1, r.2)
      | none =>
          let baseSha : Option Bytes :=
            if o.type = 6 then offLookup offs o.baseOffset
            else if o.type = 7 then o.baseSha
            else none
          match baseSha with
          | none => (deltaPass rest obs offs prog).map fun r => (o :: r.1, r.2)
          | some bs =>
              match objLookup obs bs with
              | none => (deltaPass rest obs offs prog).map fun r => (o :: r.1, r.2)
              | some b =>
                  match applyDelta b.data o.data with
                  | none => none
                  | some newData =>
                      let sha := hashObjFull b.type newData
                      let o2 := { o with data := newData, type := b.type,
                                         sha := some sha }
                      (deltaPass rest ((sha, o2) :: obs)
                          ((o2.offset, sha) :: offs) true).map
                        fun r => (o2 :: r.1, r.2)

/-- The `while (progress)` fixed-point loop (main.cpp:548-575).  The
fuel bounds the number of passes; every progressing pass resolves at
least one of the finitely many objects, so `count + 1` passes always
reach the fixed point, and a fuel of `count + 1` never runs out before
it.  Note the source performs no unresolved-delta check whatsoever
after this loop: it falls straight through to checkout. -/
def resolveLoop :
    Nat → List PackObj → List (Bytes × PackObj) → List (Nat × Bytes) →
    Option (List PackObj)
  | 0, objs, _, _ => some objs
  | fuel + 1, objs, obs, offs =>
      match deltaPass objs obs offs false with
      | none => none
      | some (objs2, obs2, offs2, prog) =>
          if prog then resolveLoop fuel objs2 obs2 offs2 else some objs2

/-- The whole delta-resolution phase of `clone` (main.cpp:529-575):
first pass over non-delta objects, then the fixed-point loop.  A
`some` result means the command proceeds to checkout (no fatal error);
unresolved deltas are simply left with `sha = none` in the result. -/
def resolveDeltas (objs : List PackObj) : Option (List PackObj) :=
  let r := firstPassAux objs [] []
  resolveLoop (objs.length + 1) r.1 r.2.1 r.2.2

/-! ## Clone discovery (main.cpp:450-474) -/

/-- Does `pat` occur as a contiguous substring of `s`
(`std::string::find(pat) != npos`)? -/
def containsSub (s pat : Bytes) : Bool :=
  (List.range (s.length + 1)).any fun i => pat.isPrefixOf (s.drop i)

/-- Split into `getline` lines: pieces delimited by newline (byte 10),
with the delimiter consumed, and no final empty line at end of input.
The fuel (the input length bounds the line count) makes the recursion
structural. -/
def gitLinesF : Nat → Bytes → List Bytes
  | 0, _ => []
  | _, [] => []
  | fuel + 1, b :: bs =>
      let line := (b :: bs).takeWhile (fun x => x != 10)
      line :: gitLinesF fuel ((b :: bs).drop (line.length + 1))

/-- The lines `while (getline(ss, line))` iterates over. -/
def gitLines (s : Bytes) : List Bytes := gitLinesF s.length s

/-- The discovery scan loop of `clone` (main.cpp:452-465): for each
line longer than 44 bytes containing `refs/heads/master` or `HEAD`,
take the 40 bytes after the pkt-length prefix (skipping a leading
`0000` flush), remember it, and stop as soon as the line contains
`refs/heads/master`.  `acc` is the running `headSha` (`none` models
the initial empty string). -/
def scanRefs : List Bytes → Option Bytes → Option Bytes
  | [], acc => acc
  | line :: rest, acc =>
      if line.length > 44 &&
          (containsSub line (asciiOf "refs/heads/master") ||
           containsSub line (asciiOf "HEAD")) then
        let sha :=
          if line.take 4 = asciiOf "0000" then (line.drop 8).take 40
          else (line.drop 4).take 40
        if containsSub line (asciiOf "refs/heads/master") then some sha
        else scanRefs rest (some sha)
      else scanRefs rest acc

/-- The commit id `clone` selects from the advertisement
(main.cpp:450-473): the scan loop's result, trimmed to 40 characters,
or `none` (the `[FATAL] No HEAD found!` exit) when nothing matched. -/
def cloneSelectSha (refs : Bytes) : Option Bytes :=
  match scanRefs (gitLines refs) none with
  | none => none
  | some sha => some (if sha.length > 40 then sha.take 40 else sha)

/-! ## `commit-tree` (main.cpp:390-436) -/

/-- The hardcoded author line (main.cpp:424). -/
def authorLineB : Bytes :=
  asciiOf "author Code Crafter <code@crafters.io> 1700000000 +0000"

/-- The hardcoded committer line (main.cpp:425). -/
def committerLineB : Bytes :=
  asciiOf "committer Code Crafter <code@crafters.io> 1700000000 +0000"

/-- The commit payload assembled by the `commit-tree` branch
(main.cpp:413-432).  An empty `parentSha` models the absent `-p`
argument (`parent_sha.empty()`). -/
def commitContent (treeSha parentSha message : Bytes) : Bytes :=
  asciiOf "tree " ++ treeSha ++ [10]
  ++ (if parentSha = [] then [] else asciiOf "parent " ++ parentSha ++ [10])
  ++ authorLineB ++ [10] ++ committerLineB ++ [10] ++ [10] ++ message ++ [10]

/-- One `commit-tree` invocation: payload and raw commit id.  The
`clock` argument models the ambient system time available to the
process; the source never reads any clock or environment in this
branch, which is what the determinism theorem captures. -/
def commitTreeRun (treeSha parentSha message : Bytes) (_clock : Nat) :
    Bytes × Bytes :=
  let payload := commitContent treeSha parentSha message
  (payload, sha1 (frameObj (asciiOf "commit") payload))

/-! ## Specification-side definitions

These follow the specification's words (not the source) and are used
only to compare the source's copy-instruction decoder against the
specified decoding. -/

/-- A conditionally present byte of a copy instruction's argument
stream: present when the corresponding command bit is set. -/
def presBytes (present : Bool) (x : Nat) : Bytes := if present then [x] else []

/-- Modelled from the spec: the copy offset — bits 0-3 of the command
select the presence of four little-endian offset bytes, missing bytes
default to zero. -/
def specCopyOff (cmd o0 o1 o2 o3 : Nat) : Nat :=
  (if cmd &&& 1 != 0 then o0 else 0) + 256 * (if cmd &&& 2 != 0 then o1 else 0)
  + 65536 * (if cmd &&& 4 != 0 then o2 else 0)
  + 16777216 * (if cmd &&& 8 != 0 then o3 else 0)

/-- Modelled from the spec: the copy size — bits 4-6 of the command
select the presence of three little-endian size bytes, missing bytes
default to zero, and a decoded size of zero means `0x10000`. -/
def specCopySize (cmd s0 s1 s2 : Nat) : Nat :=
  let s := (if cmd &&& 16 != 0 then s0 else 0)
    + 256 * (if cmd &&& 32 != 0 then s1 else 0)
    + 65536 * (if cmd &&& 64 != 0 then s2 else 0)
  if s = 0 then 65536 else s

/-! ## Helper lemmas -/

/-- Digits produced by the decimal encoder lie in the ASCII digit
range. -/
theorem decBytesAux_mem :
    ∀ fuel n acc, (∀ b ∈ acc, 48 ≤ b ∧ b ≤ 57) →
      ∀ b ∈ decBytesAux fuel n acc, 48 ≤ b ∧ b ≤ 57 := by
  intro fuel
  induction fuel with
  | zero => intro n acc h; simpa [decBytesAux] using h
  | succ fuel ih =>
    intro n acc h
    cases n with
    | zero => simpa [decBytesAux] using h
    | succ n =>
      simp only [decBytesAux]
      apply ih
      intro b hb
      rcases List.mem_cons.mp hb with hb | hb
      · subst hb
        have := Nat.mod_lt (n + 1) (show 0 < 10 by omega)
        omega
      · exact h b hb

/-- Every byte of a decimal-ASCII number is an ASCII digit. -/
theorem decBytes_mem (n : Nat) : ∀ b ∈ decBytes n, 48 ≤ b ∧ b ≤ 57 := by
  unfold decBytes
  split
  · simp
  · exact decBytesAux_mem n n [] (by simp)

/-- Splitting at the first NUL after a NUL-free prefix recovers prefix
and suffix. -/
theorem splitAtNul_append (xs p : Bytes) (h : ∀ b ∈ xs, b ≠ 0) :
    splitAtNul (xs ++ 0 :: p) = (xs, p) := by
  induction xs with
  | nil => simp [splitAtNul]
  | cons a as ih =>
    have ha : a ≠ 0 := h a (by simp)
    simp [splitAtNul, ha, ih (fun b hb => h b (by simp [hb]))]

/-- `takeWhile` stops exactly at the first failing byte. -/
theorem takeWhile_append_stop (f : Nat → Bool) (xs ys : Bytes) (y : Nat)
    (hall : ∀ b ∈ xs, f b = true) (hy : f y = false) :
    (xs ++ y :: ys).takeWhile f = xs := by
  induction xs with
  | nil => simp [List.takeWhile_cons, hy]
  | cons a as ih =>
    simp [List.takeWhile_cons, hall a (by simp),
      ih (fun b hb => hall b (by simp [hb]))]

/-- Disjoint bitwise-or is addition: or-ing a value below `2 ^ n` with
a value shifted up by `n` bits adds them. -/
theorem lor_shiftLeft_eq_add (a b n : Nat) (ha : a < 2 ^ n) :
    a ||| (b <<< n) = a + b * 2 ^ n := by
  apply Nat.eq_of_testBit_eq
  intro j
  rw [Nat.testBit_lor, Nat.testBit_shiftLeft]
  rcases Nat.lt_or_ge j n with hj | hj
  · have hdec : decide (j ≥ n) = false := by simp; omega
    rw [hdec, Bool.false_and, Bool.or_false]
    rw [Nat.testBit_to_div_mod, Nat.testBit_to_div_mod]
    have key : (a + b * 2 ^ n) / 2 ^ j % 2 = a / 2 ^ j % 2 := by
      have e1 : b * 2 ^ n = b * 2 ^ (n - j) * 2 ^ j := by
        rw [mul_assoc, ← pow_add]
        congr 2
        omega
      rw [e1, Nat.add_mul_div_right _ _ (pow_pos two_pos j)]
      have e2 : b * 2 ^ (n - j) = b * 2 ^ (n - j - 1) * 2 := by
        rw [mul_assoc, ← pow_succ]
        congr 2
        omega
      rw [e2, Nat.add_mul_mod_self_right]
    rw [key]
  · have hb0 : a.testBit j = false :=
      Nat.testBit_lt_two_pow (lt_of_lt_of_le ha (Nat.pow_le_pow_right (by norm_num) hj))
    have hdec : decide (j ≥ n) = true := by simp [hj]
    rw [hb0, hdec, Bool.true_and, Bool.false_or]
    rw [Nat.testBit_to_div_mod, Nat.testBit_to_div_mod]
    have key : (a + b * 2 ^ n) / 2 ^ j = b / 2 ^ (j - n) := by
      have e1 : (2 : Nat) ^ j = 2 ^ n * 2 ^ (j - n) := by
        rw [← pow_add]
        congr 1
        omega
      rw [e1, ← Nat.div_div_eq_div_mul, Nat.add_mul_div_right _ _ (pow_pos two_pos n),
        Nat.div_eq_of_lt ha, Nat.zero_add]
    rw [key]

/-- Four little-endian bytes composed with or/shift equal their
positional sum. -/
theorem lorBytes4 (a b c d : Nat) (ha : a < 256) (hb : b < 256) (hc : c < 256) :
    ((a ||| (b <<< 8)) ||| (c <<< 16)) ||| (d <<< 24)
      = a + 256 * b + 65536 * c + 16777216 * d := by
  rw [lor_shiftLeft_eq_add a b 8 (by omega)]
  rw [lor_shiftLeft_eq_add _ c 16 (by norm_num; omega)]
  rw [lor_shiftLeft_eq_add _ d 24 (by norm_num; omega)]
  norm_num
  ring

/-- Three little-endian bytes composed with or/shift equal their
positional sum. -/
theorem lorBytes3 (a b c : Nat) (ha : a < 256) (hb : b < 256) :
    (a ||| (b <<< 8)) ||| (c <<< 16) = a + 256 * b + 65536 * c := by
  rw [lor_shiftLeft_eq_add a b 8 (by omega)]
  rw [lor_shiftLeft_eq_add _ c 16 (by norm_num; omega)]
  norm_num
  ring

/-- Reading a conditionally present byte from a stream that carries it
exactly when the flag is set. -/
theorem condByte_presBytes (p : Bool) (x : Nat) (l : Bytes) :
    condByte p (presBytes p x ++ l) = some ((if p then x else 0), l) := by
  cases p <;> simp [condByte, presBytes]

/-- The copy-argument decoder consumes exactly the present bytes and
composes them little-endian with or/shift. -/
theorem readCopyArgs_stream (cmd o0 o1 o2 o3 s0 s1 s2 : Nat) (rest : Bytes) :
    readCopyArgs cmd (presBytes (cmd &&& 1 != 0) o0 ++ presBytes (cmd &&& 2 != 0) o1
        ++ presBytes (cmd &&& 4 != 0) o2 ++ presBytes (cmd &&& 8 != 0) o3
        ++ presBytes (cmd &&& 16 != 0) s0 ++ presBytes (cmd &&& 32 != 0) s1
        ++ presBytes (cmd &&& 64 != 0) s2 ++ rest)
      = some ((((if cmd &&& 1 != 0 then o0 else 0) ||| ((if cmd &&& 2 != 0 then o1 else 0) <<< 8))
                ||| ((if cmd &&& 4 != 0 then o2 else 0) <<< 16))
                ||| ((if cmd &&& 8 != 0 then o3 else 0) <<< 24),
              (((if cmd &&& 16 != 0 then s0 else 0) ||| ((if cmd &&& 32 != 0 then s1 else 0) <<< 8))
                ||| ((if cmd &&& 64 != 0 then s2 else 0) <<< 16)), rest) := by
  simp [readCopyArgs, List.append_assoc, condByte_presBytes]

/-! ## Claim theorems -/

/-- Claim C1.  The claim states that `write-tree` orders entries by the
canonical key (directory names sort with a trailing `/`).  The source
sorts by the raw name instead (`TreeEntry::operator<`, main.cpp:109-111):
for a directory holding a regular file `a.c` and a subdirectory `a`,
the code emits the subdirectory `a` first, although its canonical key
`a/` sorts after `a.c` byte-wise — so the encoded tree is not in
canonical order. -/
theorem c1_writeTree_order_diverges_from_canonical :
    (sortEntries [⟨asciiOf "a.c", asciiOf "100644", List.replicate 20 0⟩,
        ⟨asciiOf "a", asciiOf "40000", List.replicate 20 1⟩]).map TreeEntry.name
      = [asciiOf "a", asciiOf "a.c"]
    ∧ bytesLt (canonKey ⟨asciiOf "a.c", asciiOf "100644", List.replicate 20 0⟩)
        (canonKey ⟨asciiOf "a", asciiOf "40000", List.replicate 20 1⟩) = true
    ∧ treeContentOf [⟨asciiOf "a.c", asciiOf "100644", List.replicate 20 0⟩,
        ⟨asciiOf "a", asciiOf "40000", List.replicate 20 1⟩]
      = (asciiOf "40000" ++ [32] ++ asciiOf "a" ++ [0] ++ List.replicate 20 1)
        ++ (asciiOf "100644" ++ [32] ++ asciiOf "a.c" ++ [0]
            ++ List.replicate 20 0) := by
  decide

/-- Claim C2.  Reading an object back immediately after storing it
returns exactly the original kind and payload: `writeObject` frames,
hashes, compresses and stores, and `get` looks the hex id up, inflates
and splits at the first NUL; for each of the four object kinds the
split recovers `(kind, payload)` for every payload, provided the
external zlib codec satisfies its round-trip contract. -/
theorem c2_put_get_roundtrip (deflate inflate : Bytes → Bytes)
    (hcodec : ∀ x, inflate (deflate x) = x) (st : Store) (k p : Bytes)
    (hk : k = asciiOf "blob" ∨ k = asciiOf "tree" ∨ k = asciiOf "commit"
      ∨ k = asciiOf "tag") :
    getObject inflate (writeObject deflate st k p).2
        (shaToHexB (writeObject deflate st k p).1) = some (k, p) := by
  have hknz : ∀ b ∈ k, b ≠ 0 ∧ (b != 32) = true := by
    rcases hk with h | h | h | h <;> subst h <;> decide
  have hframe : frameObj k p = (k ++ 32 :: decBytes p.length) ++ 0 :: p := by
    simp [frameObj]
  have hsplit : splitAtNul (frameObj k p) = (k ++ 32 :: decBytes p.length, p) := by
    rw [hframe, splitAtNul_append]
    intro b hb
    rcases List.mem_append.mp hb with hb | hb
    · exact (hknz b hb).1
    · rcases List.mem_cons.mp hb with hb | hb
      · omega
      · have := decBytes_mem p.length b hb
        omega
  have htake : (k ++ 32 :: decBytes p.length).takeWhile (fun b => b != 32) = k :=
    takeWhile_append_stop _ k _ 32 (fun b hb => (hknz b hb).2) (by decide)
  simp [getObject, readObject, writeObject, storeLookup, hcodec, getKindPayload,
    hsplit, htake]

/-- Witness for C2: a concrete round-trip of a two-byte blob through
the store with the identity codec. -/
theorem c2_put_get_roundtrip_witness :
    (∀ x : Bytes, (fun y : Bytes => y) ((fun y : Bytes => y) x) = x)
    ∧ getObject (fun y => y)
        (writeObject (fun y => y) [] (asciiOf "blob") [104, 105]).2
        (shaToHexB (writeObject (fun y => y) [] (asciiOf "blob") [104, 105]).1)
      = some (asciiOf "blob", [104, 105]) :=
  ⟨fun _ => rfl,
   c2_put_get_roundtrip (fun y => y) (fun y => y) (fun _ => rfl) []
     (asciiOf "blob") [104, 105] (Or.inl rfl)⟩

set_option maxRecDepth 200000 in
/-- Claim C3.  The claim states discovery selects the id advertised for
`refs/heads/master` whenever that ref is advertised, regardless of
pkt-line order.  The source's scan loop instead breaks at the first
line containing the substring `refs/heads/master`: in a standard
advertisement whose HEAD line precedes the master line and carries the
`symref=HEAD:refs/heads/master` capability, the loop stops on the HEAD
line and returns the id found there (forty `a`s below), not the id
advertised for `refs/heads/master` (forty `b`s), even though the
master ref and its id are present verbatim in the advertisement. -/
theorem c3_discovery_selects_head_line :
    cloneSelectSha (asciiOf ("001e# service=git-upload-pack\n0000009e"
        ++ "aaaaaaaaaaaaaaaaaaaaaaaaaaaaaaaaaaaaaaaa"
        ++ " HEAD\x00symref=HEAD:refs/heads/master agent=git/2.40.1\n003f"
        ++ "bbbbbbbbbbbbbbbbbbbbbbbbbbbbbbbbbbbbbbbb"
        ++ " refs/heads/master\n"))
      = some (asciiOf "aaaaaaaaaaaaaaaaaaaaaaaaaaaaaaaaaaaaaaaa")
    ∧ containsSub (asciiOf ("001e# service=git-upload-pack\n0000009e"
        ++ "aaaaaaaaaaaaaaaaaaaaaaaaaaaaaaaaaaaaaaaa"
        ++ " HEAD\x00symref=HEAD:refs/heads/master agent=git/2.40.1\n003f"
        ++ "bbbbbbbbbbbbbbbbbbbbbbbbbbbbbbbbbbbbbbbb"
        ++ " refs/heads/master\n"))
        (asciiOf ("bbbbbbbbbbbbbbbbbbbbbbbbbbbbbbbbbbbbbbbb refs/heads/master"))
      = true
    ∧ asciiOf "aaaaaaaaaaaaaaaaaaaaaaaaaaaaaaaaaaaaaaaa"
      ≠ asciiOf "bbbbbbbbbbbbbbbbbbbbbbbbbbbbbbbbbbbbbbbb" := by
  decide

/-- Claim C4.  The claim states the reconstructed payload length always
equals the declared target size and that the engine aborts otherwise.
The source decodes the target size only as a `reserve` hint and never
compares it with the result: the delta `[0x00, 0x05]` declares target
size 5, contains no instructions, and `applyDelta` returns the empty
payload (length 0) without any error. -/
theorem c4_applyDelta_ignores_target_size :
    applyDelta [] [0, 5] = some []
    ∧ declaredTargetSize [0, 5] = 5
    ∧ ([] : Bytes).length ≠ declaredTargetSize [0, 5] := by
  decide

/-- Claim C5.  The claim states a delta instruction byte of 0 makes the
engine reject the delta and abort the pack.  The source's instruction
loop has no branch for `cmd == 0` (`else if (cmd > 0)` with no else),
so the byte is silently skipped: the delta `[0,1,0x00,0x01,0x41]`
(sizes 0 and 1, a zero command, then a one-byte insert) yields `[65]`
with no error, and `[0,0,0x00]` yields the empty payload. -/
theorem c5_zero_cmd_silently_skipped :
    applyDelta [] [0, 1, 0, 1, 65] = some [65]
    ∧ applyDelta [] [0, 0, 0] = some [] := by
  decide

/-- Claim C6.  The claim states that a delta left unresolved when the
fixed point is reached makes pack ingestion fail fatally.  The source
has no such check: after the `while (progress)` loop it falls straight
through to checkout.  For a pack holding a single ref-delta whose base
is absent, resolution completes normally (`some`) with the object
still unresolved (`sha = none`), i.e. the delta is silently dropped. -/
theorem c6_unresolved_delta_not_fatal :
    resolveDeltas [⟨7, [1, 2, 3], none,
        some (asciiOf "aaaaaaaaaaaaaaaaaaaaaaaaaaaaaaaaaaaaaaaa"), 12, 0⟩]
      = some [⟨7, [1, 2, 3], none,
        some (asciiOf "aaaaaaaaaaaaaaaaaaaaaaaaaaaaaaaaaaaaaaaa"), 12, 0⟩] := by
  decide

set_option maxRecDepth 200000 in
/-- Claim C7.  The identifier returned by `writeObject` is the SHA-1
digest of the framed string `"<kind> <decimal-size>\x00<payload>"`, and
in particular the empty blob's hex identifier is the well-known
`e69de29bb2d1d6434b8b29ae775ad8c2e48c5391`. -/
theorem c7_put_id_is_sha1_of_frame :
    (∀ (deflate : Bytes → Bytes) (st : Store) (k p : Bytes),
        (writeObject deflate st k p).1 = sha1 (frameObj k p))
    ∧ shaToHexB (sha1 (frameObj (asciiOf "blob") []))
      = asciiOf "e69de29bb2d1d6434b8b29ae775ad8c2e48c5391" :=
  ⟨fun _ _ _ _ => rfl, by decide⟩

/-- Claim C8.  A copy instruction (command bit 7 set) consumes exactly
the offset bytes selected by bits 0-3 and the size bytes selected by
bits 4-6 (little-endian, missing bytes zero), decodes a size of zero
as `0x10000`, and emits `base[offset : offset + size]`; when no size
byte is present the decoded size is exactly `0x10000`. -/
theorem c8_copy_instruction_semantics (base rest acc : Bytes)
    (cmd o0 o1 o2 o3 s0 s1 s2 fuel : Nat)
    (h80 : cmd &&& 128 ≠ 0)
    (hbytes : o0 < 256 ∧ o1 < 256 ∧ o2 < 256 ∧ o3 < 256 ∧ s0 < 256 ∧ s1 < 256
      ∧ s2 < 256)
    (hoff : specCopyOff cmd o0 o1 o2 o3 ≤ base.length) :
    applyDeltaLoop base (fuel + 1)
        (cmd :: (presBytes (cmd &&& 1 != 0) o0 ++ presBytes (cmd &&& 2 != 0) o1
          ++ presBytes (cmd &&& 4 != 0) o2 ++ presBytes (cmd &&& 8 != 0) o3
          ++ presBytes (cmd &&& 16 != 0) s0 ++ presBytes (cmd &&& 32 != 0) s1
          ++ presBytes (cmd &&& 64 != 0) s2 ++ rest)) acc
      = applyDeltaLoop base fuel rest
          (acc ++ (base.drop (specCopyOff cmd o0 o1 o2 o3)).take
            (specCopySize cmd s0 s1 s2))
    ∧ (cmd &&& 16 = 0 ∧ cmd &&& 32 = 0 ∧ cmd &&& 64 = 0 →
        specCopySize cmd s0 s1 s2 = 65536) := by
  obtain ⟨h0, h1, h2, h3, h4, h5, h6⟩ := hbytes
  have hOffEq : (((if cmd &&& 1 != 0 then o0 else 0)
      ||| ((if cmd &&& 2 != 0 then o1 else 0) <<< 8))
      ||| ((if cmd &&& 4 != 0 then o2 else 0) <<< 16))
      ||| ((if cmd &&& 8 != 0 then o3 else 0) <<< 24)
      = specCopyOff cmd o0 o1 o2 o3 := by
    rw [lorBytes4 _ _ _ _ (by split <;> omega) (by split <;> omega)
      (by split <;> omega)]
    simp [specCopyOff]
  have hSzEq : (((if cmd &&& 16 != 0 then s0 else 0)
      ||| ((if cmd &&& 32 != 0 then s1 else 0) <<< 8))
      ||| ((if cmd &&& 64 != 0 then s2 else 0) <<< 16))
      = (if cmd &&& 16 != 0 then s0 else 0)
        + 256 * (if cmd &&& 32 != 0 then s1 else 0)
        + 65536 * (if cmd &&& 64 != 0 then s2 else 0) := by
    rw [lorBytes3 _ _ _ (by split <;> omega) (by split <;> omega)]
  constructor
  · simp only [applyDeltaLoop]
    rw [readCopyArgs_stream]
    rw [if_pos h80]
    simp only [hOffEq, hSzEq]
    rw [if_neg (by omega)]
    rfl
  · rintro ⟨g16, g32, g64⟩
    simp [specCopySize, g16, g32, g64]

/-- Witness for C8: command byte `0x81` (copy, one offset byte, no size
bytes) on the base `[5, 6, 7]` — offset 2, size defaulting to
`0x10000`. -/
theorem c8_copy_instruction_witness :
    ((129 : Nat) &&& 128 ≠ 0)
    ∧ specCopyOff 129 2 0 0 0 ≤ ([5, 6, 7] : Bytes).length
    ∧ (applyDeltaLoop [5, 6, 7] 1
        (129 :: (presBytes (129 &&& 1 != 0) 2 ++ presBytes (129 &&& 2 != 0) 0
          ++ presBytes (129 &&& 4 != 0) 0 ++ presBytes (129 &&& 8 != 0) 0
          ++ presBytes (129 &&& 16 != 0) 0 ++ presBytes (129 &&& 32 != 0) 0
          ++ presBytes (129 &&& 64 != 0) 0 ++ [])) []
      = applyDeltaLoop [5, 6, 7] 0 []
          ([] ++ (([5, 6, 7] : Bytes).drop (specCopyOff 129 2 0 0 0)).take
            (specCopySize 129 0 0 0))
    ∧ ((129 : Nat) &&& 16 = 0 ∧ (129 : Nat) &&& 32 = 0 ∧ (129 : Nat) &&& 64 = 0 →
        specCopySize 129 0 0 0 = 65536)) :=
  ⟨by decide, by decide,
   c8_copy_instruction_semantics [5, 6, 7] [] [] 129 2 0 0 0 0 0 0 0
     (by decide) (by decide) (by decide)⟩

/-- Claim C9.  The claim states a variable-length size whose
continuation bit is still set on the last available byte is rejected
with a codec failure.  The source's size loops only test `pos <
delta.size()` and silently keep the partial value when input runs out:
on the one-byte delta `[0x80]` (continuation bit set, no further
bytes), the first size loop stops with the partial value 0 and
`applyDelta` returns an empty payload with no error. -/
theorem c9_truncated_size_not_rejected :
    applyDelta [] [128] = some []
    ∧ readVarSize [128] 0 0 = (0, [])
    ∧ (128 : Nat) &&& 128 ≠ 0 := by
  decide

/-- Claim C10.  `commit-tree` is deterministic: the produced payload
and identifier depend only on the tree id, the optional parent id and
the message; the ambient clock is never consulted, and the author and
committer lines are the fixed hardcoded text. -/
theorem c10_commit_tree_deterministic (t par m : Bytes) (clock1 clock2 : Nat) :
    commitTreeRun t par m clock1 = commitTreeRun t par m clock2
    ∧ (commitTreeRun t par m clock1).1
      = asciiOf "tree " ++ t ++ [10]
        ++ (if par = [] then [] else asciiOf "parent " ++ par ++ [10])
        ++ authorLineB ++ [10] ++ committerLineB ++ [10] ++ [10] ++ m ++ [10]
    ∧ (commitTreeRun t par m clock1).2 = (commitTreeRun t par m clock2).2 :=
  ⟨rfl, rfl, rfl⟩

end GitCpp
